import Mathlib

/-!
Verification of the avea BLE bulb client (src/avea/avea.py) against its
natural-language specification.

Modelling conventions:
* Python byte strings are `List ℕ` with every entry < 256.
* Python unbounded integers are `ℤ` (or `ℕ` where the source value is
  provably non-negative).
* Python floats are modelled as exact rationals (`ℚ`) for the plain
  arithmetic in `set_smooth_transition`, and as real numbers (`ℝ`) for the
  trigonometric easing in `compute_transition_table`.
* Python exceptions are modelled with `Except`: `check_bounds` can observe a
  `ValueError` or `TypeError` from `int(...)`, and the BLE write/connect
  paths can observe a `BleakError`; a propagated exception is `.error`.
* Hex-string slicing in `process_notification` always happens at even
  character offsets, so it is modelled byte-for-byte on byte lists
  (`values.hex()[-2*k:-2*m]` corresponds to the byte slice `values[-k:-m]`).
-/

namespace Avea

/-! ## Python integer conversion and `check_bounds` -/

/-- Exceptions that `int(value)` can raise in the situations modelled here. -/
inductive PyErr
  | valueError
  | typeError
deriving DecidableEq, Repr

/-- The kinds of Python values a caller can pass to `check_bounds`:
integers, floats (modelled as rationals), strings, `None`, and arbitrary
non-numeric objects. -/
inductive PyVal
  | int (n : ℤ)
  | float (q : ℚ)
  | str (s : String)
  | none
  | obj
deriving DecidableEq

/-- Truncation toward zero, the behaviour of Python `int()` on a float. -/
def pyTrunc (q : ℚ) : ℤ := if 0 ≤ q then ⌊q⌋ else ⌈q⌉

/-- Parse a run of decimal digits, accumulator style; `Option.none` when a
non-digit character appears. -/
def parseDigitsAux : List Char → ℕ → Option ℕ
  | [], acc => some acc
  | c :: cs, acc =>
    if c.isDigit then parseDigitsAux cs (acc * 10 + (c.toNat - 48)) else Option.none

/-- Python `int(s)` on a string: optional sign followed by at least one
decimal digit (whitespace/underscore tolerance is not modelled; it does not
affect any claim). `Option.none` models a raised `ValueError`. -/
def strToInt? (s : String) : Option ℤ :=
  match s.data with
  | [] => Option.none
  | '-' :: cs =>
    if cs = [] then Option.none else (parseDigitsAux cs 0).map (fun n => -(n : ℤ))
  | '+' :: cs =>
    if cs = [] then Option.none else (parseDigitsAux cs 0).map (fun n => (n : ℤ))
  | cs => (parseDigitsAux cs 0).map (fun n => (n : ℤ))

/-- Python `int(value)` for the modelled value kinds: identity on ints,
truncation on floats, digit parsing on strings (`ValueError` on failure),
and `TypeError` on `None` or non-numeric objects. -/
def pyToInt : PyVal → Except PyErr ℤ
  | .int n => .ok n
  | .float q => .ok (pyTrunc q)
  | .str s =>
    match strToInt? s with
    | some n => .ok n
    | Option.none => .error .valueError
  | .none => .error .typeError
  | .obj => .error .typeError

/-- The clamping arm of `check_bounds`: values above 4095 become 4095,
values below 0 become 0, in-range values pass through. -/
def clampZ (n : ℤ) : ℤ := if 4095 < n then 4095 else if n < 0 then 0 else n

/-- Result of a `check_bounds` call that did not raise: the returned value
plus whether the fallback diagnostic message was printed. -/
structure CheckResult where
  value : ℤ
  diagnostic : Bool
deriving DecidableEq, Repr

/-- `check_bounds` from avea.py: `int(value)` inside `try/except ValueError`;
a `ValueError` prints a diagnostic and returns 0; any other exception
(e.g. the `TypeError` from `int(None)`) is not caught and propagates. -/
def check_bounds (v : PyVal) : Except PyErr CheckResult :=
  match pyToInt v with
  | .error .valueError => .ok ⟨0, true⟩
  | .error e => .error e
  | .ok i => .ok ⟨clampZ i, false⟩

/-- The value `check_bounds` produces on a Python `int` argument (this path
never raises). -/
def cbInt (n : ℤ) : ℤ := clampZ n

/-! ## Codec: `compute_brightness` and `compute_color` -/

/-- Little-endian value of a byte list, as `int.from_bytes(·, "little")`. -/
def leVal : List ℕ → ℕ
  | [] => 0
  | b :: rest => b + 256 * leVal rest

/-- Python `v.to_bytes(2, byteorder="little")` (the source only calls it on
values below 65536; larger values raise `OverflowError` in Python). -/
def toBytesLE2 (v : ℕ) : List ℕ := [v % 256, v / 256 % 256]

/-- Reversed hex digits of `n` (least significant first), with explicit fuel
so the definition is structural and kernel-reducible; `fuel ≥ n` suffices. -/
def hexDigitsRevAux : ℕ → ℕ → List ℕ
  | _, 0 => []
  | 0, _ + 1 => []
  | fuel + 1, n + 1 => ((n + 1) % 16) :: hexDigitsRevAux fuel ((n + 1) / 16)

/-- Big-endian hex digit list of `n`, as `hex(n)[2:]` (so `[0]` for 0). -/
def hexDigits (n : ℕ) : List ℕ :=
  if n = 0 then [0] else (hexDigitsRevAux n n).reverse

/-- Python `str.zfill(4)` on a digit list: left-pad with zeros to length 4. -/
def zfill4 (l : List ℕ) : List ℕ := List.replicate (4 - l.length) 0 ++ l

/-- The swap `value[2:] + value[:2]` from `compute_brightness`. -/
def swapHalves (l : List ℕ) : List ℕ := l.drop 2 ++ l.take 2

/-- `bytes.fromhex`: combine consecutive hex-digit pairs into bytes. -/
def pairsToBytes : List ℕ → List ℕ
  | a :: b :: rest => (16 * a + b) :: pairsToBytes rest
  | _ => []

/-- `compute_brightness` from avea.py: hex-encode the level, zero-pad to
4 digits, swap the two 2-digit groups, and prefix the command tag 0x57. -/
def compute_brightness (v : ℕ) : List ℕ :=
  0x57 :: pairsToBytes (swapHalves (zfill4 (hexDigits v)))

/-- `compute_color` from avea.py: tag 0x35, fade bytes 11 01, reserved bytes
0a 00, then the four channel words (white | 0x8000, red | 0x3000,
green | 0x2000, blue | 0x1000), each as two little-endian bytes. -/
def compute_color (w r g b : ℕ) : List ℕ :=
  [0x35, 0x11, 0x01, 0x0a, 0x00]
    ++ toBytesLE2 (w ||| 0x8000)
    ++ toBytesLE2 (r ||| 0x3000)
    ++ toBytesLE2 (g ||| 0x2000)
    ++ toBytesLE2 (b ||| 0x1000)

/-! ## Session state and `process_notification` -/

/-- The mutable per-bulb state of a `Bulb` instance (the Session's
`BulbState`). -/
structure BulbState where
  name : String
  fw_version : String
  red : ℤ
  blue : ℤ
  green : ℤ
  brightness : ℤ
  white : ℤ
  color_known : Bool
deriving DecidableEq

/-- The state set up by `Bulb.__init__`. -/
def initBulb : BulbState :=
  { name := "Unknown", fw_version := "Unknown", red := 0, blue := 0, green := 0,
    brightness := 0, white := 0, color_known := false }

/-- Python byte-slice `xs[-hi:-lo]` (with `lo = 0` meaning `xs[-hi:]`),
including Python's clamping of out-of-range negative indices to 0. -/
def pySliceNegBytes (xs : List ℕ) (hi lo : ℕ) : List ℕ :=
  (xs.drop (xs.length - hi)).take ((xs.length - lo) - (xs.length - hi))

/-- Python `bytes.decode("utf-8")` with the source's fallback to the
sentinel name `"Unknown"` on invalid UTF-8. -/
def decodeNameBytes (values : List ℕ) : String :=
  match String.fromUTF8? (ByteArray.mk ⟨values.map (fun n => UInt8.ofNat n)⟩) with
  | some s => s
  | Option.none => "Unknown"

/-- `Bulb.process_notification` from avea.py. Tag 0x57 stores the remaining
bytes as a little-endian brightness. Tag 0x35 reads, from the tail of the
payload's hex string, four 16-bit little-endian words: the last word XOR
0x3000 into red, the next XOR 0x2000 into green, the next XOR 0x1000 into
blue, and the fourth from the end (unmasked) into white, then sets
`color_known`. Tag 0x58 decodes the remaining bytes as the UTF-8 name.
Any other tag (or an empty payload) changes nothing. -/
def process_notification (data : List ℕ) (s : BulbState) : BulbState :=
  match data with
  | [] => s
  | cmd :: values =>
    if cmd = 0x57 then
      { s with brightness := (leVal values : ℤ) }
    else if cmd = 0x35 then
      { s with
        red := ((leVal (pySliceNegBytes values 2 0) ^^^ 0x3000 : ℕ) : ℤ)
        green := ((leVal (pySliceNegBytes values 4 2) ^^^ 0x2000 : ℕ) : ℤ)
        blue := ((leVal (pySliceNegBytes values 6 4) ^^^ 0x1000 : ℕ) : ℤ)
        white := ((leVal (pySliceNegBytes values 8 6) : ℕ) : ℤ)
        color_known := true }
    else if cmd = 0x58 then
      { s with name := decodeNameBytes values }
    else s

/-- The framing a live device strips when echoing a color command back: the
fade flag `11 01` and reserved `0a 00` bytes (payload positions 1–4),
keeping the tag byte and the four channel words. -/
def stripDeviceEcho (bs : List ℕ) : List ℕ := bs.take 1 ++ bs.drop 5

/-! ## `set_smooth_transition` frame-rate and frame-count arithmetic -/

/-- `max(1, min(int(fps), MAX_TRANSITION_FPS))` from `set_smooth_transition`
(`MAX_TRANSITION_FPS = 5`). -/
def clampedFps (fps : ℚ) : ℤ := max 1 (min (pyTrunc fps) 5)

/-- `max(1, int(duration * clamped_fps))` from `set_smooth_transition`: the
number of frames the code actually plans. -/
def codeIterations (duration : ℚ) (fps : ℚ) : ℤ :=
  max 1 (pyTrunc (duration * (clampedFps fps : ℚ)))

/-- Modelled from the spec: the frame-count formula the specification
states, `max(1, round(duration_seconds * effective_fps))` — rounding of the
product rather than the truncation the code performs. -/
def specFrameCount (duration : ℚ) (fps : ℚ) : ℤ :=
  max 1 (round (duration * (clampedFps fps : ℚ)))

/-! ## `compute_transition_table` (Python floats modelled as reals) -/

/-- The eased interpolation fraction `(1 - cos(pi * n / N)) / 2` for frame
`n` of `N`. -/
noncomputable def easedFraction (n N : ℕ) : ℝ :=
  (1 - Real.cos (Real.pi * n / N)) / 2

/-- One entry of the transition table:
`round(init + (target - init) * eased)`. -/
noncomputable def transitionValue (init target : ℤ) (N n : ℕ) : ℤ :=
  round ((init : ℝ) + ((target : ℝ) - (init : ℝ)) * easedFraction n N)

/-- `compute_transition_table` from avea.py: clamp the iteration count to at
least 1; a single iteration yields `[target]`; otherwise map the eased
interpolation over frames 1..iterations. -/
noncomputable def compute_transition_table (init target : ℤ) (iterations : ℤ) : List ℤ :=
  let iters := (max 1 iterations).toNat
  if iters = 1 then [target]
  else (List.range' 1 iters).map (fun n => transitionValue init target iters n)

/-! ## Session state updates: `set_color`, `set_rgb`, `get_rgb` -/

/-- The state effect of `Bulb.set_color(w, r, g, b)` on integer arguments:
if the connection step fails the method returns early and nothing changes;
otherwise each channel is stored through `check_bounds` and `color_known`
is set. -/
def set_color_state (connectOk : Bool) (s : BulbState) (w r g b : ℤ) : BulbState :=
  if connectOk then
    { s with white := cbInt w, red := cbInt r, green := cbInt g, blue := cbInt b,
             color_known := true }
  else s

/-- The state effect of `Bulb.set_rgb(r, g, b)`:
`set_color(0, red * 16, green * 16, blue * 16)`. -/
def set_rgb_state (connectOk : Bool) (s : BulbState) (r g b : ℤ) : BulbState :=
  set_color_state connectOk s 0 (r * 16) (g * 16) (b * 16)

/-- The triple `Bulb.get_rgb` returns: `int(channel / 16)` for each stored
channel (true division then truncation toward zero, which `Int.div` models;
division of an integer by 16 is exact in double precision for all stored
magnitudes). This is what the method returns both on the connection-failure
path and on the no-echo path, since an absent notification leaves the state
untouched. -/
def get_rgb_result (s : BulbState) : ℤ × ℤ × ℤ :=
  (Int.tdiv s.red 16, Int.tdiv s.green 16, Int.tdiv s.blue 16)

/-! ## The `_smooth_transition` write/reconnect control flow -/

/-- Outcomes of the BLE link consumed by `_smooth_transition`, attempt by
attempt: `writeOk k` tells whether the k-th GATT write succeeds, and
`connectOk k` whether the k-th reconnection attempt succeeds. -/
structure LinkOracle where
  writeOk : ℕ → Bool
  connectOk : ℕ → Bool

/-- The connection-side state threaded through `_smooth_transition`:
whether a client is currently connected, plus counters indexing into the
oracle. -/
structure Link where
  connected : Bool
  writes : ℕ
  connects : ℕ
deriving DecidableEq, Repr

/-- `Bulb._write_command`: raises `BleakError` (the `.error` arm) when no
connected client is present — without consuming a write attempt — and
otherwise performs the write, which succeeds or raises according to the
oracle. -/
def writeCommand (o : LinkOracle) (st : Link) : Except Link Link :=
  if st.connected then
    if o.writeOk st.writes then .ok { st with writes := st.writes + 1 }
    else .error { st with writes := st.writes + 1 }
  else .error st

/-- `Bulb._connect` as used mid-transition: immediate success when already
connected, otherwise one attempt whose outcome the oracle decides (all
failures inside `_connect` are caught and become `False`). -/
def reconnect (o : LinkOracle) (st : Link) : Bool × Link :=
  if st.connected then (true, st)
  else (o.connectOk st.connects,
        { st with connects := st.connects + 1, connected := o.connectOk st.connects })

/-- The frame loop of `Bulb._smooth_transition`. Each frame is written
without response; on an exception the client is disconnected and one
reconnect is attempted — a failed reconnect `break`s out of the loop
(returning the last successfully written payload so far), while after a
successful reconnect the frame is rewritten *outside* any `try`, so a
second failure propagates (the `.error` arm). Frame payload bytes do not
influence the control flow, so payloads are carried opaquely. -/
def transitionLoop (o : LinkOracle) :
    List (List ℕ) → Option (List ℕ) → Link → Except Link (Link × Option (List ℕ))
  | [], last, st => .ok (st, last)
  | p :: rest, last, st =>
    match writeCommand o st with
    | .ok st1 => transitionLoop o rest (some p) st1
    | .error st1 =>
      let st2 : Link := { st1 with connected := false }
      match reconnect o st2 with
      | (true, st3) =>
        match writeCommand o st3 with
        | .ok st4 => transitionLoop o rest (some p) st4
        | .error st4 => .error st4
      | (false, st3) => .ok (st3, last)

/-- `Bulb._smooth_transition` end to end: raise if not connected on entry,
run the frame loop, and — whenever at least one frame was written — repeat
the last payload as a final acknowledged write, whose failure also
propagates. -/
def smoothTransitionRun (o : LinkOracle) (frames : List (List ℕ)) (st : Link) :
    Except Link Link :=
  if st.connected then
    match transitionLoop o frames Option.none st with
    | .error st1 => .error st1
    | .ok (st1, Option.none) => .ok st1
    | .ok (st1, some _) =>
      match writeCommand o st1 with
      | .ok st2 => .ok st2
      | .error st2 => .error st2
  else .error st

/-- `Bulb.set_smooth_transition` after a successful initial connection
(`color_known` assumed, so no `get_color` round-trip): submit the
transition coroutine; if it raises, the exception propagates through
`future.result()` and the optimistic state-update lines are never reached;
otherwise red/green/blue are set to the clamped 12-bit targets and
`color_known` is set. -/
def setSmoothTransitionOutcome (o : LinkOracle) (frames : List (List ℕ))
    (st : Link) (bulb : BulbState) (targetRed targetGreen targetBlue : ℤ) :
    Except Link (BulbState × Link) :=
  match smoothTransitionRun o frames st with
  | .error st1 => .error st1
  | .ok st1 =>
    .ok ({ bulb with red := cbInt (targetRed * 16), green := cbInt (targetGreen * 16),
                     blue := cbInt (targetBlue * 16), color_known := true }, st1)

/-! ## Bit-level helper lemmas -/

theorem orHighBits (m x : ℕ) (hx : x < 4096) : x ||| (4096 * m) = 4096 * m + x := by
  have h4096 : (4096 : ℕ) = 2 ^ 12 := by norm_num
  rw [h4096] at hx ⊢
  rw [Nat.lor_comm]
  exact (Nat.mul_add_lt_is_or hx m).symm

theorem xorHighBits (a b x : ℕ) (hx : x < 4096) :
    (4096 * a + x) ^^^ (4096 * b) = 4096 * (a ^^^ b) + x := by
  have hx' : x < 2 ^ 12 := by omega
  apply Nat.eq_of_testBit_eq
  intro j
  have e1 : (4096 * a + x : ℕ) = 2 ^ 12 * a + x := by norm_num
  have e2 : (4096 * b : ℕ) = 2 ^ 12 * b := by norm_num
  have e3 : (4096 * (a ^^^ b) + x : ℕ) = 2 ^ 12 * (a ^^^ b) + x := by norm_num
  rw [e1, e2, e3, Nat.testBit_xor, Nat.testBit_mul_pow_two_add _ hx',
    Nat.testBit_mul_pow_two_add _ hx', Nat.testBit_mul_pow_two]
  rcases Nat.lt_or_ge j 12 with hj | hj
  · rw [if_pos hj, if_pos hj]
    simp [Nat.not_le_of_lt hj]
  · rw [if_neg (Nat.not_lt_of_le hj), if_neg (Nat.not_lt_of_le hj)]
    simp [hj, Nat.testBit_xor]

theorem or_white (x : ℕ) (hx : x < 4096) : x ||| 32768 = 32768 + x := by
  have h := orHighBits 8 x hx
  norm_num at h
  exact h

theorem or_red (x : ℕ) (hx : x < 4096) : x ||| 12288 = 12288 + x := by
  have h := orHighBits 3 x hx
  norm_num at h
  exact h

theorem or_green (x : ℕ) (hx : x < 4096) : x ||| 8192 = 8192 + x := by
  have h := orHighBits 2 x hx
  norm_num at h
  exact h

theorem or_blue (x : ℕ) (hx : x < 4096) : x ||| 4096 = 4096 + x := by
  have h := orHighBits 1 x hx
  norm_num at h
  exact h

theorem xor_red_word (x : ℕ) (hx : x < 4096) : (12288 + x) ^^^ 4096 = 8192 + x := by
  have h := xorHighBits 3 1 x hx
  have e : (3 : ℕ) ^^^ 1 = 2 := by decide
  rw [e] at h
  norm_num at h
  exact h

theorem xor_green_word (x : ℕ) (hx : x < 4096) : (8192 + x) ^^^ 8192 = x := by
  have h := xorHighBits 2 2 x hx
  have e : (2 : ℕ) ^^^ 2 = 0 := by decide
  rw [e] at h
  norm_num at h
  exact h

theorem xor_blue_word (x : ℕ) (hx : x < 4096) : (4096 + x) ^^^ 12288 = 8192 + x := by
  have h := xorHighBits 1 3 x hx
  have e : (1 : ℕ) ^^^ 3 = 2 := by decide
  rw [e] at h
  norm_num at h
  exact h

theorem leVal_toBytesLE2 (x : ℕ) (hx : x < 65536) : leVal (toBytesLE2 x) = x := by
  simp [leVal, toBytesLE2]
  omega

/-! ## Hex-digit characterization for `compute_brightness` -/

theorem revAux_zero (f : ℕ) : hexDigitsRevAux f 0 = [] := by
  cases f <;> rfl

theorem revAux_step (f n : ℕ) (hn : 0 < n) :
    hexDigitsRevAux (f + 1) n = n % 16 :: hexDigitsRevAux f (n / 16) := by
  obtain ⟨m, rfl⟩ : ∃ m, n = m + 1 := ⟨n - 1, by omega⟩
  rfl

theorem hexDigits_eq (v : ℕ) (h : v < 4096) :
    hexDigits v =
      if v = 0 then [0]
      else if v < 16 then [v % 16]
      else if v < 256 then [v / 16 % 16, v % 16]
      else [v / 256 % 16, v / 16 % 16, v % 16] := by
  by_cases h0 : v = 0
  · simp [hexDigits, h0]
  · rw [hexDigits, if_neg h0]
    by_cases h1 : v < 16
    · obtain ⟨m, rfl⟩ : ∃ m, v = m + 1 := ⟨v - 1, by omega⟩
      rw [revAux_step m (m + 1) (by omega), Nat.div_eq_of_lt h1, revAux_zero]
      simp [h0, h1]
    · by_cases h2 : v < 256
      · obtain ⟨m, rfl⟩ : ∃ m, v = m + 2 := ⟨v - 2, by omega⟩
        rw [revAux_step (m + 1) (m + 2) (by omega)]
        rw [revAux_step m ((m + 2) / 16) (by omega)]
        rw [show (m + 2) / 16 / 16 = 0 by omega, revAux_zero]
        simp [h0, h1, h2]
      · obtain ⟨m, rfl⟩ : ∃ m, v = m + 3 := ⟨v - 3, by omega⟩
        rw [revAux_step (m + 2) (m + 3) (by omega)]
        rw [revAux_step (m + 1) ((m + 3) / 16) (by omega)]
        rw [revAux_step m ((m + 3) / 16 / 16) (by omega)]
        rw [show (m + 3) / 16 / 16 / 16 = 0 by omega, revAux_zero]
        have e : (m + 3) / 16 / 16 = (m + 3) / 256 := by omega
        rw [e]
        simp [h0, h1, h2]

theorem pySlice_words (w2 r2 g2 b2 : List ℕ) (hw : w2.length = 2) (hr : r2.length = 2)
    (hg : g2.length = 2) (hb : b2.length = 2) :
    pySliceNegBytes (w2 ++ r2 ++ g2 ++ b2) 2 0 = b2 ∧
    pySliceNegBytes (w2 ++ r2 ++ g2 ++ b2) 4 2 = g2 ∧
    pySliceNegBytes (w2 ++ r2 ++ g2 ++ b2) 6 4 = r2 ∧
    pySliceNegBytes (w2 ++ r2 ++ g2 ++ b2) 8 6 = w2 := by
  obtain ⟨a1, a2, rfl⟩ := List.length_eq_two.mp hw
  obtain ⟨c1, c2, rfl⟩ := List.length_eq_two.mp hr
  obtain ⟨d1, d2, rfl⟩ := List.length_eq_two.mp hg
  obtain ⟨e1, e2, rfl⟩ := List.length_eq_two.mp hb
  exact ⟨rfl, rfl, rfl, rfl⟩

/-- C6. For in-range channel values, `compute_color` is the tag byte 0x35,
the fixed framing bytes 11 01 0a 00, and the four marker-tagged 16-bit
words (white + 0x8000, red + 0x3000, green + 0x2000, blue + 0x1000 — the
marker OR coincides with addition because the channel value occupies only
the low 12 bits), each split into a low byte and a high byte in
little-endian order; concretely `compute_color 2000 0 0 0` is the byte
vector 35 11 01 0a 00 d0 87 00 30 00 20 00 10. -/
theorem c6_compute_color_layout :
    (∀ w r g b : ℕ, w ≤ 4095 → r ≤ 4095 → g ≤ 4095 → b ≤ 4095 →
      compute_color w r g b =
        [0x35, 0x11, 0x01, 0x0a, 0x00,
         (w + 0x8000) % 256, (w + 0x8000) / 256,
         (r + 0x3000) % 256, (r + 0x3000) / 256,
         (g + 0x2000) % 256, (g + 0x2000) / 256,
         (b + 0x1000) % 256, (b + 0x1000) / 256]) ∧
    compute_color 2000 0 0 0 =
      [0x35, 0x11, 0x01, 0x0a, 0x00, 0xd0, 0x87, 0x00, 0x30, 0x00, 0x20, 0x00, 0x10] := by
  constructor
  · intro w r g b hw hr hg hb
    simp only [compute_color, toBytesLE2, or_white w (by omega), or_red r (by omega),
      or_green g (by omega), or_blue b (by omega), List.cons_append, List.nil_append,
      List.cons.injEq, and_true, List.append_nil]
    norm_num
    omega
  · decide

/-- Witness for C6 at a concrete in-range input. -/
theorem c6_witness :
    compute_color 1 2 3 4 = [53, 17, 1, 10, 0, 1, 128, 2, 48, 3, 32, 4, 16] := by
  have h := c6_compute_color_layout.1 1 2 3 4 (by decide) (by decide) (by decide) (by decide)
  simpa using h

/-- C7. For levels in [0, 4095], `compute_brightness` is the tag byte 0x57
followed by the two bytes obtained from the zero-padded big-endian hex
string of the level with its two 2-digit groups swapped — arithmetically
the low byte `v % 256` then the high byte `v / 256`; concretely
`compute_brightness 256` is the byte vector 57 00 01. -/
theorem c7_compute_brightness_layout :
    (∀ v : ℕ, v ≤ 4095 → compute_brightness v = [0x57, v % 256, v / 256]) ∧
    compute_brightness 256 = [0x57, 0x00, 0x01] := by
  constructor
  · intro v hv
    rw [compute_brightness, hexDigits_eq v (by omega)]
    split_ifs with h0 h1 h2
    · subst h0
      decide
    · simp only [zfill4, swapHalves, pairsToBytes, List.length_cons, List.length_nil]
      norm_num [List.replicate]
      omega
    · simp only [zfill4, swapHalves, pairsToBytes, List.length_cons, List.length_nil]
      norm_num [List.replicate]
      omega
    · simp only [zfill4, swapHalves, pairsToBytes, List.length_cons, List.length_nil]
      norm_num [List.replicate]
      omega
  · decide

/-- Witness for C7 at a concrete in-range input. -/
theorem c7_witness : compute_brightness 4095 = [87, 255, 15] := by
  have h := c7_compute_brightness_layout.1 4095 (by decide)
  simpa using h

theorem decode_color_frame (w2 r2 g2 b2 : List ℕ) (s : BulbState)
    (hw : w2.length = 2) (hr : r2.length = 2) (hg : g2.length = 2) (hb : b2.length = 2) :
    process_notification (0x35 :: (w2 ++ r2 ++ g2 ++ b2)) s =
      { s with red := ((leVal b2 ^^^ 0x3000 : ℕ) : ℤ),
               green := ((leVal g2 ^^^ 0x2000 : ℕ) : ℤ),
               blue := ((leVal r2 ^^^ 0x1000 : ℕ) : ℤ),
               white := ((leVal w2 : ℕ) : ℤ),
               color_known := true } := by
  obtain ⟨hs1, hs2, hs3, hs4⟩ := pySlice_words w2 r2 g2 b2 hw hr hg hb
  simp only [process_notification]
  rw [hs1, hs2, hs3, hs4]
  norm_num

/-- C1, corrected version. Feeding a `compute_color` frame (with the
fade/reserved framing stripped, which is irrelevant anyway because the
decoder slices from the tail) into `process_notification` does not recover
the original channels: the decoder reads the words from the tail in the
order red, green, blue, white, whereas the encoder emits white, red,
green, blue, and the white marker bit is never stripped. The result is
red = blue + 0x2000, green = green, blue = red + 0x2000,
white = white + 0x8000 — only green makes the round trip. -/
theorem c1_roundtrip_amended (w r g b : ℕ) (s : BulbState)
    (hw : w ≤ 4095) (hr : r ≤ 4095) (hg : g ≤ 4095) (hb : b ≤ 4095) :
    process_notification (stripDeviceEcho (compute_color w r g b)) s =
      { s with red := ((8192 + b : ℕ) : ℤ),
               green := ((g : ℕ) : ℤ),
               blue := ((8192 + r : ℕ) : ℤ),
               white := ((32768 + w : ℕ) : ℤ),
               color_known := true } := by
  have hstrip : stripDeviceEcho (compute_color w r g b) =
      (0x35 : ℕ) :: (toBytesLE2 (w ||| 0x8000) ++ toBytesLE2 (r ||| 0x3000) ++
        toBytesLE2 (g ||| 0x2000) ++ toBytesLE2 (b ||| 0x1000)) := by
    simp [stripDeviceEcho, compute_color, toBytesLE2]
  rw [hstrip, decode_color_frame (toBytesLE2 (w ||| 0x8000)) (toBytesLE2 (r ||| 0x3000))
    (toBytesLE2 (g ||| 0x2000)) (toBytesLE2 (b ||| 0x1000)) s rfl rfl rfl rfl]
  rw [or_white w (by omega), or_red r (by omega), or_green g (by omega), or_blue b (by omega)]
  rw [leVal_toBytesLE2 _ (by omega), leVal_toBytesLE2 _ (by omega),
      leVal_toBytesLE2 _ (by omega), leVal_toBytesLE2 _ (by omega)]
  rw [xor_blue_word b (by omega), xor_green_word g (by omega), xor_red_word r (by omega)]

/-- Witness for the corrected C1 at a concrete in-range input. -/
theorem c1_witness :
    process_notification (stripDeviceEcho (compute_color 1 2 3 4)) initBulb =
      { initBulb with red := 8196, green := 3, blue := 8194, white := 32769,
                      color_known := true } := by
  have h := c1_roundtrip_amended 1 2 3 4 initBulb (by decide) (by decide) (by decide)
    (by decide)
  simpa using h

/-- C1, counterexample to the claim as stated: at (w, r, g, b) =
(2000, 0, 0, 0) the decoded white channel is 0x8000 + 2000 = 34768, not the
original 2000. -/
theorem c1_counterexample :
    (process_notification (stripDeviceEcho (compute_color 2000 0 0 0)) initBulb).white
        = 34768 ∧ (34768 : ℤ) ≠ 2000 := by
  exact ⟨by decide, by decide⟩

/-- C10. A notification whose first byte is none of 0x57, 0x35, 0x58 — in
particular an empty payload, whose `head?` is `Option.none` — leaves the
whole bulb state unchanged (and, being a total function, the model cannot
raise). -/
theorem c10_unknown_tag_no_change (data : List ℕ) (s : BulbState)
    (h57 : data.head? ≠ some 0x57) (h35 : data.head? ≠ some 0x35)
    (h58 : data.head? ≠ some 0x58) :
    process_notification data s = s := by
  cases data with
  | nil => rfl
  | cons c values =>
    simp only [List.head?_cons, ne_eq, Option.some.injEq] at h57 h35 h58
    simp [process_notification, h57, h35, h58]

/-- Witness for C10: a payload with the unhandled tag 0x42. -/
theorem c10_witness : process_notification [0x42, 1, 2] initBulb = initBulb :=
  c10_unknown_tag_no_change [0x42, 1, 2] initBulb (by decide) (by decide) (by decide)

/-- C5. On integer inputs `check_bounds` never raises and clamps into
[0, 4095]: above-range values map to 4095, below-range to 0, in-range
values pass through unchanged; and on the non-numeric string "abc" it
returns 0 (with the diagnostic printed). -/
theorem c5_check_bounds_clamps (n : ℤ) :
    check_bounds (.int n) = .ok ⟨clampZ n, false⟩ ∧
    0 ≤ clampZ n ∧ clampZ n ≤ 4095 ∧
    (4095 < n → clampZ n = 4095) ∧ (n < 0 → clampZ n = 0) ∧
    (0 ≤ n → n ≤ 4095 → clampZ n = n) ∧
    check_bounds (.str "abc") = .ok ⟨0, true⟩ := by
  refine ⟨rfl, ?_, ?_, ?_, ?_, ?_, rfl⟩ <;>
    · simp only [clampZ]
      split_ifs <;> omega

/-- Witness for C5 at concrete inputs on both sides of the range. -/
theorem c5_witness : clampZ 5000 = 4095 ∧ clampZ (-3) = 0 ∧ clampZ 17 = 17 := by
  exact ⟨(c5_check_bounds_clamps 5000).2.2.2.1 (by decide),
    (c5_check_bounds_clamps (-3)).2.2.2.2.1 (by decide),
    (c5_check_bounds_clamps 17).2.2.2.2.2.1 (by decide) (by decide)⟩

/-- C2, counterexample to the claim as stated: `check_bounds(None)` does
not return a value — `int(None)` raises `TypeError`, which the
`except ValueError` handler does not catch, so it propagates. -/
theorem c2_counterexample : check_bounds PyVal.none = Except.error PyErr.typeError := rfl

/-- C2, corrected version. `check_bounds` returns a value (never
propagates) for every input whose `int(...)` conversion either succeeds or
raises `ValueError` — all ints, floats and strings — and on any string
that does not parse as an integer it emits the diagnostic and returns 0;
but inputs whose conversion raises `TypeError` (None, non-numeric objects)
propagate the error. -/
theorem c2_failsoft_amended :
    (∀ v : PyVal, pyToInt v ≠ .error .typeError → ∃ res, check_bounds v = .ok res) ∧
    (∀ s : String, strToInt? s = Option.none → check_bounds (.str s) = .ok ⟨0, true⟩) ∧
    check_bounds (.str "abc") = .ok ⟨0, true⟩ := by
  refine ⟨?_, ?_, rfl⟩
  · intro v hv
    cases v with
    | int n => exact ⟨⟨clampZ n, false⟩, rfl⟩
    | float q => exact ⟨⟨clampZ (pyTrunc q), false⟩, rfl⟩
    | str s =>
      cases h : strToInt? s with
      | some n => exact ⟨⟨clampZ n, false⟩, by simp [check_bounds, pyToInt, h]⟩
      | none => exact ⟨⟨0, true⟩, by simp [check_bounds, pyToInt, h]⟩
    | none => exact absurd rfl hv
    | obj => exact absurd rfl hv
  · intro s hs
    simp [check_bounds, pyToInt, hs]

/-- Witness for the corrected C2 on an int input. -/
theorem c2_witness : ∃ res, check_bounds (.int 7) = .ok res :=
  c2_failsoft_amended.1 (.int 7) (by simp [pyToInt])

/-- C9. `set_rgb` (on the successful-connection path, the only path that
updates state) always stores white = 0, stores each channel scaled by 16
through the bounds guard, and marks the color known; `get_rgb` divides the
stored channels by 16, so after `set_rgb(255, 0, 128)` with no device echo
it returns exactly (255, 0, 128). -/
theorem c9_set_get_rgb :
    (∀ (s : BulbState) (r g b : ℤ),
      (set_rgb_state true s r g b).white = 0 ∧
      (set_rgb_state true s r g b).red = clampZ (r * 16) ∧
      (set_rgb_state true s r g b).green = clampZ (g * 16) ∧
      (set_rgb_state true s r g b).blue = clampZ (b * 16) ∧
      (set_rgb_state true s r g b).color_known = true) ∧
    get_rgb_result (set_rgb_state true initBulb 255 0 128) = (255, 0, 128) := by
  constructor
  · intro s r g b
    refine ⟨?_, rfl, rfl, rfl, rfl⟩
    simp [set_rgb_state, set_color_state, cbInt, clampZ]
  · rfl

/-- C3, counterexample to the claim as stated: at duration 1.9 s and
requested fps 1 the code plans `max(1, int(1.9)) = 1` frame, while the
spec formula `max(1, round(1.9))` gives 2. -/
theorem c3_counterexample :
    codeIterations (19 / 10 : ℚ) 1 = 1 ∧ specFrameCount (19 / 10 : ℚ) 1 = 2 ∧
    (1 : ℤ) ≠ 2 := by
  refine ⟨?_, ?_, by decide⟩
  · norm_num [codeIterations, clampedFps, pyTrunc, Int.floor_eq_iff]
  · norm_num [specFrameCount, clampedFps, pyTrunc, round_eq, Int.floor_eq_iff]

/-- C3, corrected version. The effective frame rate is
`max(1, min(fps, 5))` (so always in [1, 5]), and the planned frame count is
`max(1, ⌊duration * effective_fps⌋)` — truncation (= floor for the
non-negative durations that arise), not rounding, of the product; at least
one frame is always planned. -/
theorem c3_frame_count_amended :
    (∀ duration fps : ℚ, 0 ≤ duration →
      codeIterations duration fps = max 1 ⌊duration * (clampedFps fps : ℚ)⌋) ∧
    (∀ n : ℤ, clampedFps (n : ℚ) = max 1 (min n 5)) ∧
    (∀ duration fps : ℚ, 1 ≤ codeIterations duration fps ∧
      1 ≤ clampedFps fps ∧ clampedFps fps ≤ 5) := by
  refine ⟨?_, ?_, ?_⟩
  · intro d fps hd
    have h1 : (1 : ℤ) ≤ clampedFps fps := le_max_left _ _
    have hq : (0 : ℚ) ≤ d * (clampedFps fps : ℚ) := by
      apply mul_nonneg hd
      exact_mod_cast le_trans zero_le_one h1
    rw [codeIterations, pyTrunc, if_pos hq]
  · intro n
    have hn : pyTrunc (n : ℚ) = n := by
      rw [pyTrunc]
      split_ifs with h
      · exact Int.floor_intCast n
      · exact Int.ceil_intCast n
    rw [clampedFps, hn]
  · intro d fps
    exact ⟨le_max_left _ _, le_max_left _ _,
      max_le (by norm_num) (min_le_right _ _)⟩

/-- Witness for the corrected C3 at duration 1 s, requested fps 60. -/
theorem c3_witness :
    codeIterations 1 60 = max 1 ⌊(1 : ℚ) * (clampedFps 60 : ℚ)⌋ :=
  c3_frame_count_amended.1 1 60 zero_le_one

/-- C4. Evaluation of `set_smooth_transition` (after a successful initial
connection) at the failing input: two frames, the first write succeeds,
the second fails, and the one-shot reconnect fails. The loop `break`s, but
the trailing acknowledged re-write of the last payload then runs against
the disconnected client and raises `BleakError`; the exception propagates
out of the call and the optimistic `red/green/blue/color_known` update is
never reached — contradicting the claim that the state update happens and
no error propagates regardless of write/reconnect failures. -/
theorem c4_reconnect_failure_run :
    setSmoothTransitionOutcome ⟨fun k => k == 0, fun _ => false⟩ [[0], [1]]
        ⟨true, 0, 0⟩ initBulb 100 200 300 =
      Except.error ⟨false, 2, 1⟩ := rfl

/-! ## Transition-table lemmas (C8) -/

theorem roundMono {x y : ℝ} (h : x ≤ y) : round x ≤ round y := by
  rw [round_eq, round_eq]
  exact Int.floor_mono (by linarith)

theorem easedFraction_last (N : ℕ) (hN : N ≠ 0) : easedFraction N N = 1 := by
  unfold easedFraction
  rw [mul_div_assoc, div_self (by exact_mod_cast hN), mul_one, Real.cos_pi]
  norm_num

theorem transitionValue_last (init target : ℤ) (N : ℕ) (hN : N ≠ 0) :
    transitionValue init target N N = target := by
  unfold transitionValue
  rw [easedFraction_last N hN, mul_one]
  have e : (init : ℝ) + ((target : ℝ) - (init : ℝ)) = (target : ℝ) := by ring
  rw [e, round_intCast]

theorem easedFraction_mono (N a b : ℕ) (hN : N ≠ 0) (hab : a ≤ b) (hbN : b ≤ N) :
    easedFraction a N ≤ easedFraction b N := by
  unfold easedFraction
  have hNpos : (0 : ℝ) < (N : ℝ) := by exact_mod_cast Nat.pos_of_ne_zero hN
  have hcast : (a : ℝ) ≤ (b : ℝ) := by exact_mod_cast hab
  have hcastN : (b : ℝ) ≤ (N : ℝ) := by exact_mod_cast hbN
  have h1 : Real.pi * (a : ℝ) / N ≤ Real.pi * (b : ℝ) / N := by gcongr
  have h2 : Real.pi * (b : ℝ) / N ≤ Real.pi * (N : ℝ) / N := by gcongr
  have h3 : Real.pi * (N : ℝ) / N = Real.pi := by
    rw [mul_div_assoc, div_self (ne_of_gt hNpos), mul_one]
  rw [h3] at h2
  have h4 : Real.cos (Real.pi * (b : ℝ) / N) ≤ Real.cos (Real.pi * (a : ℝ) / N) := by
    apply Real.cos_le_cos_of_nonneg_of_le_pi
    · positivity
    · exact h2
    · exact h1
  linarith

theorem transitionValue_mono (init target : ℤ) (N a b : ℕ) (hN : N ≠ 0)
    (hlt : init < target) (hab : a ≤ b) (hbN : b ≤ N) :
    transitionValue init target N a ≤ transitionValue init target N b := by
  unfold transitionValue
  have hd : (0 : ℝ) ≤ (target : ℝ) - (init : ℝ) := by
    have : (init : ℝ) < (target : ℝ) := by exact_mod_cast hlt
    linarith
  have he := easedFraction_mono N a b hN hab hbN
  apply roundMono
  nlinarith

theorem table_getLast (init target iterations : ℤ) (h : 1 ≤ iterations) :
    (compute_transition_table init target iterations).getLast? = some target := by
  unfold compute_transition_table
  set N := (max 1 iterations).toNat with hNdef
  have hN1 : 1 ≤ N := by omega
  by_cases hone : N = 1
  · simp [hone]
  · rw [if_neg hone]
    rw [show N = (N - 1) + 1 by omega, List.range'_concat, List.map_append, List.map_cons,
      List.map_nil, List.getLast?_concat]
    rw [show N - 1 + 1 = N by omega, show 1 + 1 * (N - 1) = N by omega]
    exact congrArg some (transitionValue_last init target N (by omega))

theorem table_mono (init target iterations : ℤ) (hlt : init < target) :
    (compute_transition_table init target iterations).Pairwise (· ≤ ·) := by
  unfold compute_transition_table
  set N := (max 1 iterations).toNat with hNdef
  by_cases hone : N = 1
  · simp [hone]
  · rw [if_neg hone]
    refine List.pairwise_map.mpr
      (List.Pairwise.imp_of_mem ?_ (List.pairwise_lt_range' 1 N))
    intro a b ha hb hab
    have hmb := List.mem_range'_1.mp hb
    exact transitionValue_mono init target N a b (by omega) hlt (le_of_lt hab) (by omega)

/-- C8. For every init/target and every iteration count of at least 1, the
transition table ends exactly at the target value, and when the target
exceeds the initial value the table is monotonically non-decreasing;
concretely, the plan from `set_smooth_transition` for duration 1 s and
requested fps 60 has `max(1, int(1 * min(60, 5))) = 5` frames, and the
5-frame table from 0 to 4095 has length 5 and final value 4095. (Python
float arithmetic is modelled by exact real arithmetic here.) -/
theorem c8_table_last_and_mono :
    (∀ init target iterations : ℤ, 1 ≤ iterations →
      (compute_transition_table init target iterations).getLast? = some target ∧
      (init < target →
        (compute_transition_table init target iterations).Pairwise (· ≤ ·))) ∧
    codeIterations 1 60 = 5 ∧
    (compute_transition_table 0 4095 5).length = 5 ∧
    (compute_transition_table 0 4095 5).getLast? = some 4095 := by
  refine ⟨fun i t it h => ⟨table_getLast i t it h,
    fun hlt => table_mono i t it hlt⟩, ?_, ?_, table_getLast 0 4095 5 (by omega)⟩
  · norm_num [codeIterations, clampedFps, pyTrunc, Int.floor_eq_iff]
  · simp [compute_transition_table]

/-- Witness for C8 at a concrete input. -/
theorem c8_witness :
    (compute_transition_table 0 5 3).getLast? = some 5 ∧
    (compute_transition_table 0 5 3).Pairwise (· ≤ ·) := by
  have h := c8_table_last_and_mono.1 0 5 3 (by decide)
  exact ⟨h.1, h.2 (by decide)⟩

end Avea
